import Mathlib

/-!
Verification of the AWS stock-market batch / real-time processing handlers.

The Python handlers are shallowly embedded: pandas column coercions become
parser functions `String → Option _` supplied as parameters (pandas itself
is an external library), dataframes become lists of rows, the pandas left
merge becomes an explicit per-left-row match-list construction, and the
Athena latest-price window query becomes a per-symbol argmax over the
scanned partition.  Timestamps and dates are concrete structures with
decidable equality and order.
-/

namespace StockMarket

/-- A calendar date, as produced by `pd.to_datetime(...).dt.date`. -/
structure Date where
  year : Int
  month : Nat
  day : Nat
deriving DecidableEq, Repr

/-- A raw CSV row of a daily batch file, before cleaning: all fields are
untyped strings, as read by `wr.s3.read_csv`. -/
structure RawBatchRow where
  company : String
  date : String
  close_price : String
deriving DecidableEq, Repr

/-- A cleaned daily-batch row: `close_price` coerced to integer,
`date` parsed. -/
structure CleanRow where
  company : String
  date : Date
  close_price : Int
deriving DecidableEq, Repr

/-- A row of the persisted `stock_market.price_by_date` table as read back
through Athena.  `close_price` is `Option` because a SQL column is nullable
and the delta computation tests that very null. -/
structure SnapRow where
  company : String
  close_date : Date
  close_price : Option Int
deriving DecidableEq, Repr

/-- A row written to the partitioned Parquet destination: the delta rows
renamed to the canonical schema plus the derived partition year. -/
structure PersistRow where
  company : String
  close_date : Date
  close_price : Int
  p_year : Int
deriving DecidableEq, Repr

/-! ### Record cleaning (process_batch_files_lambda, cleaning section)

The Python pipeline is, in this order:
1. `pd.to_numeric(close_price, errors='coerce')`, count the NaNs,
   `dropna(subset=['close_price'])`;
2. `pd.to_datetime(date, errors='coerce').dt.date` on the survivors,
   add the NaN count, `dropna(subset=['date'])`.
The price-invalid rows are dropped before the date column is inspected. -/

/-- Step 1 of cleaning: attach the price-coercion result to each row. -/
def coercePrices (toNum : String → Option Int) (rows : List RawBatchRow) :
    List (RawBatchRow × Option Int) :=
  rows.map (fun r => (r, toNum r.close_price))

/-- Full cleaning pipeline of `process_batch_files_lambda`: returns the
cleaned rows and the reported bad-record count. -/
def cleanBatch (toNum : String → Option Int) (toDate : String → Option Date)
    (rows : List RawBatchRow) : List CleanRow × Nat :=
  let priced := coercePrices toNum rows
  let bad1 := (priced.filter (fun p => p.2 = none)).length
  let kept1 : List (RawBatchRow × Int) :=
    priced.filterMap (fun p => p.2.map (fun v => (p.1, v)))
  let dated := kept1.map (fun p => (p, toDate p.1.date))
  let bad2 := (dated.filter (fun p => p.2 = none)).length
  let kept2 : List CleanRow :=
    dated.filterMap (fun p => p.2.map (fun d => ⟨p.1.1.company, d, p.1.2⟩))
  (kept2, bad1 + bad2)

/-! ### The delta computation (left merge and null filter) -/

/-- The snapshot rows matching a cleaned row's `(company, date)` key, in
snapshot order — the right-hand matches a pandas left merge produces for
one left row. -/
def matchesOf (b : CleanRow) (snap : List SnapRow) : List SnapRow :=
  snap.filter (fun s => s.company = b.company ∧ s.close_date = b.date)

/-- The delta of `process_batch_files_lambda`: left-merge the cleaned batch
with the snapshot on `(company, date) = (company, close_date)`, keep the
merged rows whose right-hand `close_price` is null, project the left
columns.  A left row with no snapshot match yields exactly one merged row
with a null right-hand price. -/
def deltaRows (batch : List CleanRow) (snap : List SnapRow) : List CleanRow :=
  batch.flatMap (fun b =>
    let ms := matchesOf b snap
    if ms = [] then [b]
    else (ms.filter (fun s => s.close_price = none)).map (fun _ => b))

/-- Whether a cleaned row's key occurs in the snapshot. -/
def keyInSnap (b : CleanRow) (snap : List SnapRow) : Bool :=
  snap.any (fun s => s.company = b.company ∧ s.close_date = b.date)

/-- A delta row as it lands in the persisted table (read back through
Athena the appended `close_price` is the non-null written value). -/
def cleanToSnap (r : CleanRow) : SnapRow :=
  ⟨r.company, r.date, some r.close_price⟩

/-- A delta row as written to the partitioned Parquet dataset, with the
derived partition year `p_year = year(close_date)`. -/
def cleanToPersist (r : CleanRow) : PersistRow :=
  ⟨r.company, r.date, r.close_price, r.date.year⟩

/-! ### The whole batch handler -/

/-- The structured result dictionary returned by
`process_batch_files_lambda` (all three keys always present). -/
structure BatchResult where
  status : String
  records_appended : Nat
  duration_seconds : Nat
deriving DecidableEq, Repr

/-- Observable outcome of one batch-handler invocation: the returned
result and the rows written to the Parquet destination (`none` when the
write is never attempted). -/
structure BatchOutcome where
  result : BatchResult
  written : Option (List PersistRow)
deriving DecidableEq, Repr

/-- `process_batch_files_lambda`, after the S3 read: `raw` is the ingested
CSV, `snap` the Athena snapshot, `duration` the wall-clock duration the
handler measures.  Mirrors the source's branch structure: the empty-file
short circuit precedes cleaning; the write happens only when the delta is
nonempty; `records_difference` compares the delta count with the RAW
ingested count. -/
def process_batch_files_lambda (toNum : String → Option Int)
    (toDate : String → Option Date) (duration : Nat)
    (raw : List RawBatchRow) (snap : List SnapRow) : BatchOutcome :=
  if raw.length = 0 then
    { result := ⟨"success with warning", 0, duration⟩, written := none }
  else
    let cleaned := (cleanBatch toNum toDate raw).1
    let delta := deltaRows cleaned snap
    if delta.length > 0 then
      let persisted := delta.map cleanToPersist
      let records_difference : Int := (raw.length : Int) - delta.length
      if records_difference = 0 then
        { result := ⟨"success", delta.length, duration⟩, written := some persisted }
      else
        { result := ⟨"success with warning", delta.length, duration⟩,
          written := some persisted }
    else
      { result := ⟨"success with warning", 0, duration⟩, written := none }

/-! ### The streaming side (process_stock_stream_data) -/

/-- A timestamp at second resolution, as parsed by `pd.to_datetime` from a
`'%Y-%m-%d %H:%M:%S'` string: the calendar year plus the position within
that year.  Ordered lexicographically. -/
structure Timestamp where
  year : Int
  sub : Nat
deriving DecidableEq, Repr

/-- Strict order on timestamps. -/
def tsLt (a b : Timestamp) : Prop :=
  a.year < b.year ∨ (a.year = b.year ∧ a.sub < b.sub)

/-- Non-strict order on timestamps. -/
def tsLe (a b : Timestamp) : Prop :=
  a.year < b.year ∨ (a.year = b.year ∧ a.sub ≤ b.sub)

instance : DecidablePred (fun p : Timestamp × Timestamp => tsLt p.1 p.2) :=
  fun _ => by unfold tsLt; infer_instance

instance (a b : Timestamp) : Decidable (tsLt a b) := by
  unfold tsLt; infer_instance

instance (a b : Timestamp) : Decidable (tsLe a b) := by
  unfold tsLe; infer_instance

/-- A raw line-delimited JSON tick, before cleaning. -/
structure RawTick where
  symbol : String
  price : String
  produced_at : String
deriving DecidableEq, Repr

/-- A cleaned tick. -/
structure Tick where
  symbol : String
  price : Int
  produced_at : Timestamp
deriving DecidableEq, Repr

/-- A row of the `stream_prices_history` table: the persisted ticks with
their partition year. -/
structure HistRow where
  symbol : String
  price : Int
  produced_at : Timestamp
  p_year : Int
deriving DecidableEq, Repr

/-- Cleaning pipeline of `process_stock_stream_data`: same shape as the
batch cleaning — price coercion and NaN drop first, then timestamp parsing
on the survivors. -/
def cleanTicks (toNum : String → Option Int)
    (toTs : String → Option Timestamp) (rows : List RawTick) :
    List Tick × Nat :=
  let priced := rows.map (fun r => (r, toNum r.price))
  let bad1 := (priced.filter (fun p => p.2 = none)).length
  let kept1 : List (RawTick × Int) :=
    priced.filterMap (fun p => p.2.map (fun v => (p.1, v)))
  let dated := kept1.map (fun p => (p, toTs p.1.produced_at))
  let bad2 := (dated.filter (fun p => p.2 = none)).length
  let kept2 : List Tick :=
    dated.filterMap (fun p => p.2.map (fun t => ⟨p.1.1.symbol, p.1.2, t⟩))
  (kept2, bad1 + bad2)

/-! ### The latest-price view query

`latest_prices_query` scans `stream_prices_history` restricted to
`p_year = year(produced_at)`, ranks the rows of each symbol by
`produced_at` descending with `row_number()`, and keeps rank 1.  The
embedding computes, per symbol of the scanned partition, the first-in-scan
row of maximal `produced_at` (one admissible `row_number` tie order). -/

/-- The scanned partition: history rows whose partition year matches the
year of their own timestamp. -/
def scanned (hist : List HistRow) : List HistRow :=
  hist.filter (fun r => r.p_year = r.produced_at.year)

/-- The scanned rows of one symbol. -/
def rowsFor (s : String) (rows : List HistRow) : List HistRow :=
  rows.filter (fun r => r.symbol = s)

/-- One comparison step of the descending ranking: keep the later row,
first occurrence winning ties. -/
def pickBetter (best q : HistRow) : HistRow :=
  if tsLt best.produced_at q.produced_at then q else best

/-- The rank-1 row of one symbol partition: the first row of maximal
`produced_at`. -/
def pickLatest : List HistRow → Option HistRow
  | [] => none
  | r :: rs => some (rs.foldl pickBetter r)

/-- The result set of `latest_prices_query`: one rank-1 row per symbol
occurring in the scanned partition. -/
def latestView (hist : List HistRow) : List HistRow :=
  (((scanned hist).map (·.symbol)).dedup).filterMap
    (fun s => pickLatest (rowsFor s (scanned hist)))

/-! ### The stream handler's return value -/

/-- The dictionary returned by `process_stock_stream_data`.  Python
returns a dict, so keys can be absent: `none` models an absent key
(`status` is present on every return path). -/
structure StreamResult where
  status : String
  records_appended : Option Nat
  duration_seconds : Option Nat
deriving DecidableEq, Repr

/-- The return value of `process_stock_stream_data` as a function of the
queue messages, the raw rows read from the notified objects, and the
measured duration.  Mirrors the source's return paths: empty message list
→ bare `no_messages` dict; empty dataframe → warning with zero appended;
otherwise clean, append everything, and downgrade the status iff any row
was rejected. -/
def process_stock_stream_data (toNum : String → Option Int)
    (toTs : String → Option Timestamp) (duration : Nat)
    (messages : List String) (raw : List RawTick) : StreamResult :=
  if messages = [] then ⟨"no_messages", none, none⟩
  else if raw.length = 0 then ⟨"success with warning", some 0, some duration⟩
  else
    let cb := cleanTicks toNum toTs raw
    if cb.2 = 0 then ⟨"success", some cb.1.length, some duration⟩
    else ⟨"success with warning", some cb.1.length, some duration⟩

/-! ### Auxiliary notions for the stated properties -/

/-- The `(company, close_date)` keys of a persisted-table row list. -/
def snapKeys (rows : List SnapRow) : List (String × Date) :=
  rows.map (fun s => (s.company, s.close_date))

/-- The `(company, date)` keys of a cleaned-batch row list. -/
def cleanKeys (rows : List CleanRow) : List (String × Date) :=
  rows.map (fun r => (r.company, r.date))

/-- The persisted store holds at most one `close_price` per
`(company, close_date)` key. -/
def uniqKeys (rows : List SnapRow) : Prop :=
  (snapKeys rows).Nodup

instance (rows : List SnapRow) : Decidable (uniqKeys rows) := by
  unfold uniqKeys; infer_instance

/-- Modelled from the spec: the bad-record count as §4.1 words it — rows
invalid on price plus rows invalid on date, the two scans counted
independently over the whole raw batch, so a row failing both coercions
is counted twice.  Compared against the count `cleanBatch` actually
computes. -/
def specBadRecordCount (toNum : String → Option Int)
    (toDate : String → Option Date) (rows : List RawBatchRow) : Nat :=
  (rows.filter (fun r => toNum r.close_price = none)).length +
  (rows.filter (fun r => toDate r.date = none)).length

/-! ### Synthetic data generators

Both generators share the hard-coded symbol → reference price table and
the ±10% price range.  Python's `int(ref * 0.9)` and `int(ref * 1.1)`
equal `⌊9·ref/10⌋` and `⌊11·ref/10⌋` for every reference price in the
table (the float products exceed the exact decimal values by well under
the distance to the next lower integer), so the ranges are embedded with
exact natural-number division.  `randrange(lo, hi)` is embedded as
`lo + r % (hi - lo)` for a supplied random number `r`; `datetime.now()`
becomes a clock function indexed by the call counter. -/

/-- The hard-coded `companies_price` table (reference prices of
2025-01-25), in Python dict insertion order. -/
def companiesPrice : List (String × Nat) :=
  [("NVDA", 143), ("AAPL", 223), ("MSFT", 444), ("AMZN", 234),
   ("GOOGL", 200), ("META", 647), ("TSLA", 407), ("WMT", 95),
   ("JPM", 265), ("V", 330), ("ORCL", 184), ("MA", 490),
   ("XOM", 109), ("NFLX", 978), ("PG", 164), ("SAP", 276)]

/-- `min_price = int(current_price * 0.9)`. -/
def minPrice (ref : Nat) : Nat := 9 * ref / 10

/-- `max_price = int(current_price * 1.1)`. -/
def maxPrice (ref : Nat) : Nat := 11 * ref / 10

/-- `randrange(min_price, max_price)` driven by the random source value
`r`: a value of the half-open interval `[min_price ref, max_price ref)`. -/
def drawnPrice (ref : Nat) (r : Nat) : Nat :=
  minPrice ref + r % (maxPrice ref - minPrice ref)

/-- One record of the streaming producer's `stock_data` list:
`produced_at` is the second-resolution formatted `datetime.now()`
reading. -/
structure StockRec where
  symbol : String
  price : Nat
  produced_at : Nat
deriving DecidableEq, Repr

/-- `create_stock_market_data`: iterate the table in insertion order; for
the `i`-th company draw a price from its range with the `i`-th random
value and stamp it with the `i`-th `datetime.now()` reading (the call
sits inside the loop); then `sample(stock_data, randrange(5,16))`,
embedded as selection by the index list the sampler chose. -/
def create_stock_market_data (rng : Nat → Nat) (clock : Nat → Nat)
    (sampleIdx : List Nat) : List StockRec :=
  let base : List StockRec :=
    (companiesPrice.enum).map
      (fun p => ⟨p.2.1, drawnPrice p.2.2 (rng p.1), clock p.1⟩)
  sampleIdx.filterMap (fun i => base[i]?)

/-- A row of the batch generator's CSV output. -/
structure GenBatchRow where
  company : String
  date : String
  close_price : Nat
deriving DecidableEq, Repr

/-- `generate_stock_batch_data` (dataframe construction): one random date
string drawn once before the loop is shared by every company; each
company's close price is drawn from its ±10% range. -/
def generate_stock_batch_data (rng : Nat → Nat) (randomDate : String) :
    List GenBatchRow :=
  (companiesPrice.enum).map
    (fun p => ⟨p.2.1, randomDate, drawnPrice p.2.2 (rng p.1)⟩)

/-! ### The stream publisher (write_records_to_stream) -/

/-- An entry of the `put_records` request: the JSON line (with the manual
trailing newline) and the partition key. -/
structure PutRecord where
  data : String
  partitionKey : String
deriving DecidableEq, Repr

/-- `json.dumps(record) + '\n'` for one stock record. -/
def jsonLine (r : StockRec) : String :=
  "\x7b\"symbol\": \"" ++ r.symbol ++ "\", \"price\": " ++ toString r.price
    ++ ", \"produced_at\": \"" ++ toString r.produced_at ++ "\"\x7d\n"

/-- The encoding loop of `write_records_to_stream`: serialize each record
and key it by its symbol. -/
def encodeRecord (r : StockRec) : PutRecord :=
  ⟨jsonLine r, r.symbol⟩

/-- The response of the Kinesis `put_records` call. -/
structure PutResponse where
  failedRecordCount : Nat
deriving DecidableEq, Repr

/-- The observable behaviour of one `write_records_to_stream` invocation:
what was pushed to the stream and the returned
`{FailedRecordCount, SuccessRecordCount}` pair. -/
structure PublishOutcome where
  pushed : List PutRecord
  failedRecordCount : Nat
  successRecordCount : Nat
deriving DecidableEq, Repr

/-- `write_records_to_stream(records, event, context)`: the `records`
parameter is immediately rebound to a fresh `create_stock_market_data()`
result before any use; the fresh records are encoded and pushed, and the
returned counts come from the transport response and the fresh list's
length.  `putRecords` stands for the Kinesis client call. -/
def write_records_to_stream (putRecords : List PutRecord → PutResponse)
    (rng : Nat → Nat) (clock : Nat → Nat) (sampleIdx : List Nat)
    (records : List StockRec) : PublishOutcome :=
  let records := create_stock_market_data rng clock sampleIdx
  let encoded := records.map encodeRecord
  let response := putRecords encoded
  ⟨encoded, response.failedRecordCount, records.length⟩

/-! ## Helper lemmas on the daily-batch delta -/

theorem matchesOf_eq_nil_iff (b : CleanRow) (snap : List SnapRow) :
    matchesOf b snap = [] ↔ keyInSnap b snap = false := by
  simp [matchesOf, keyInSnap, List.filter_eq_nil_iff, List.any_eq_false]

theorem matches_null_filter_nil (b : CleanRow) (snap : List SnapRow)
    (hnn : ∀ s ∈ snap, s.close_price ≠ none) :
    (matchesOf b snap).filter (fun s => s.close_price = none) = [] := by
  refine List.filter_eq_nil_iff.mpr (fun s hs => ?_)
  have := hnn s (List.mem_of_mem_filter hs)
  simp [this]

theorem deltaRows_cons (b : CleanRow) (bs : List CleanRow)
    (snap : List SnapRow) :
    deltaRows (b :: bs) snap =
      (if matchesOf b snap = [] then [b]
       else ((matchesOf b snap).filter
              (fun s => s.close_price = none)).map (fun _ => b))
        ++ deltaRows bs snap := by
  simp [deltaRows]

theorem deltaRows_eq_filter (batch : List CleanRow) (snap : List SnapRow)
    (hnn : ∀ s ∈ snap, s.close_price ≠ none) :
    deltaRows batch snap = batch.filter (fun b => !(keyInSnap b snap)) := by
  induction batch with
  | nil => rfl
  | cons b bs ih =>
    rw [deltaRows_cons, ih, List.filter_cons]
    by_cases hk : keyInSnap b snap = false
    · rw [if_pos ((matchesOf_eq_nil_iff b snap).mpr hk)]
      simp [hk]
    · have hk' : keyInSnap b snap = true := by
        cases h : keyInSnap b snap with
        | false => exact absurd h hk
        | true => rfl
      have hms : ¬ matchesOf b snap = [] := by
        intro h
        rw [(matchesOf_eq_nil_iff b snap).mp h] at hk'
        exact Bool.false_ne_true hk'
      rw [if_neg hms, matches_null_filter_nil b snap hnn]
      simp [hk']

theorem keyInSnap_append (b : CleanRow) (l1 l2 : List SnapRow) :
    keyInSnap b (l1 ++ l2) = (keyInSnap b l1 || keyInSnap b l2) := by
  simp [keyInSnap]

/-! ## Claims about the delta engine -/

/-- C1.  Daily-batch delta correctness: for a cleaned batch and a snapshot
whose rows all carry a non-null `close_price` and at most one row per
`(company, close_date)` key, the computed delta is exactly the rows of the
batch whose key occurs in no snapshot row, and no delta row shares a key
with any snapshot row. -/
theorem daily_batch_delta_correct (batch : List CleanRow)
    (snap : List SnapRow)
    (hnn : ∀ s ∈ snap, s.close_price ≠ none)
    (huniq : uniqKeys snap) :
    deltaRows batch snap = batch.filter (fun b => !(keyInSnap b snap)) ∧
    ∀ d ∈ deltaRows batch snap, keyInSnap d snap = false := by
  have h := deltaRows_eq_filter batch snap hnn
  refine ⟨h, fun d hd => ?_⟩
  rw [h] at hd
  have := (List.mem_filter.mp hd).2
  simpa using this

/-- Witness for C1: two incoming rows, a snapshot holding one of them; the
delta is exactly the other row, disjoint from the snapshot by key. -/
theorem daily_batch_delta_correct_witness :
    (∀ s ∈ [SnapRow.mk "MSFT" ⟨2024, 1, 2⟩ (some 300)],
        s.close_price ≠ none) ∧
    uniqKeys [SnapRow.mk "MSFT" ⟨2024, 1, 2⟩ (some 300)] ∧
    (deltaRows [⟨"AAPL", ⟨2024, 1, 1⟩, 200⟩, ⟨"MSFT", ⟨2024, 1, 2⟩, 300⟩]
        [SnapRow.mk "MSFT" ⟨2024, 1, 2⟩ (some 300)] =
      ([⟨"AAPL", ⟨2024, 1, 1⟩, 200⟩, ⟨"MSFT", ⟨2024, 1, 2⟩, 300⟩] :
          List CleanRow).filter
        (fun b => !(keyInSnap b [SnapRow.mk "MSFT" ⟨2024, 1, 2⟩ (some 300)])) ∧
     ∀ d ∈ deltaRows [⟨"AAPL", ⟨2024, 1, 1⟩, 200⟩, ⟨"MSFT", ⟨2024, 1, 2⟩, 300⟩]
          [SnapRow.mk "MSFT" ⟨2024, 1, 2⟩ (some 300)],
        keyInSnap d [SnapRow.mk "MSFT" ⟨2024, 1, 2⟩ (some 300)] = false) :=
  ⟨by decide, by decide,
   daily_batch_delta_correct _ _ (by decide) (by decide)⟩

/-- C2.  Idempotence of the daily-batch delta: re-running the same batch
against the snapshot extended by the first run's delta yields an empty
delta. -/
theorem daily_batch_delta_idempotent (batch : List CleanRow)
    (snap : List SnapRow)
    (hnn : ∀ s ∈ snap, s.close_price ≠ none) :
    deltaRows batch (snap ++ (deltaRows batch snap).map cleanToSnap) = [] := by
  have hnn' : ∀ s ∈ snap ++ (deltaRows batch snap).map cleanToSnap,
      s.close_price ≠ none := by
    intro s hs
    rcases List.mem_append.mp hs with h | h
    · exact hnn s h
    · rcases List.mem_map.mp h with ⟨r, _, rfl⟩
      simp [cleanToSnap]
  rw [deltaRows_eq_filter _ _ hnn']
  refine List.filter_eq_nil_iff.mpr (fun b hb => ?_)
  suffices h : keyInSnap b (snap ++ (deltaRows batch snap).map cleanToSnap) = true by
    simp [h]
  rw [keyInSnap_append]
  by_cases hk : keyInSnap b snap = true
  · simp [hk]
  · have hk' : keyInSnap b snap = false := by
      cases h : keyInSnap b snap with
      | false => rfl
      | true => exact absurd h hk
    have hb' : b ∈ deltaRows batch snap := by
      rw [deltaRows_eq_filter _ _ hnn]
      exact List.mem_filter.mpr ⟨hb, by simp [hk']⟩
    have hmem : keyInSnap b ((deltaRows batch snap).map cleanToSnap) = true := by
      refine List.any_eq_true.mpr ⟨cleanToSnap b, List.mem_map_of_mem _ hb', ?_⟩
      simp [cleanToSnap]
    simp [hmem]

/-- Witness for C2: one genuinely new row; after its delta is appended to
the snapshot, the second run's delta is empty. -/
theorem daily_batch_delta_idempotent_witness :
    (∀ s ∈ [SnapRow.mk "MSFT" ⟨2024, 1, 2⟩ (some 300)],
        s.close_price ≠ none) ∧
    deltaRows [⟨"AAPL", ⟨2024, 1, 1⟩, 200⟩]
      ([SnapRow.mk "MSFT" ⟨2024, 1, 2⟩ (some 300)] ++
        (deltaRows [⟨"AAPL", ⟨2024, 1, 1⟩, 200⟩]
          [SnapRow.mk "MSFT" ⟨2024, 1, 2⟩ (some 300)]).map cleanToSnap) = [] :=
  ⟨by decide, daily_batch_delta_idempotent _ _ (by decide)⟩

/-- C4.  Empty-batch short-circuit: whenever the cleaned batch is empty
(in particular when the ingested file is empty), the handler writes
nothing and returns zero appended records with status
"success with warning". -/
theorem empty_batch_short_circuit (toNum : String → Option Int)
    (toDate : String → Option Date) (duration : Nat)
    (raw : List RawBatchRow) (snap : List SnapRow)
    (hclean : (cleanBatch toNum toDate raw).1 = []) :
    process_batch_files_lambda toNum toDate duration raw snap =
      ⟨⟨"success with warning", 0, duration⟩, none⟩ := by
  unfold process_batch_files_lambda
  by_cases hraw : raw.length = 0
  · simp [hraw]
  · simp only [if_neg hraw, hclean]
    simp [deltaRows]

/-- Witness for C4: the empty ingested file. -/
theorem empty_batch_short_circuit_witness :
    (cleanBatch (fun _ => none) (fun _ => none) []).1 = [] ∧
    process_batch_files_lambda (fun _ => none) (fun _ => none) 7 []
        [SnapRow.mk "MSFT" ⟨2024, 1, 2⟩ (some 300)] =
      ⟨⟨"success with warning", 0, 7⟩, none⟩ :=
  ⟨rfl, empty_batch_short_circuit _ _ 7 _ _ rfl⟩

/-! ## Helper lemmas on the bad-record count -/

theorem cleanBatch_snd_cons (toNum : String → Option Int)
    (toDate : String → Option Date) (r : RawBatchRow)
    (rs : List RawBatchRow) :
    (cleanBatch toNum toDate (r :: rs)).2 =
      (if toNum r.close_price = none then 1
       else if toDate r.date = none then 1 else 0) +
      (cleanBatch toNum toDate rs).2 := by
  cases h1 : toNum r.close_price with
  | none => simp [cleanBatch, coercePrices, h1]; omega
  | some v =>
    cases h2 : toDate r.date with
    | none => simp [cleanBatch, coercePrices, h1, h2]; omega
    | some d => simp [cleanBatch, coercePrices, h1, h2]

theorem cleanBatch_badCount (toNum : String → Option Int)
    (toDate : String → Option Date) (rows : List RawBatchRow) :
    (cleanBatch toNum toDate rows).2 =
      (rows.filter (fun r => toNum r.close_price = none)).length +
      (rows.filter (fun r =>
        toNum r.close_price ≠ none ∧ toDate r.date = none)).length := by
  induction rows with
  | nil => rfl
  | cons r rs ih =>
    rw [cleanBatch_snd_cons, ih, List.filter_cons, List.filter_cons]
    by_cases h1 : toNum r.close_price = none
    · simp [h1]; omega
    · by_cases h2 : toDate r.date = none
      · simp [h1, h2]; omega
      · simp [h1, h2]

theorem cleanTicks_snd_cons (toNum : String → Option Int)
    (toTs : String → Option Timestamp) (r : RawTick) (rs : List RawTick) :
    (cleanTicks toNum toTs (r :: rs)).2 =
      (if toNum r.price = none then 1
       else if toTs r.produced_at = none then 1 else 0) +
      (cleanTicks toNum toTs rs).2 := by
  cases h1 : toNum r.price with
  | none => simp [cleanTicks, h1]; omega
  | some v =>
    cases h2 : toTs r.produced_at with
    | none => simp [cleanTicks, h1, h2]; omega
    | some t => simp [cleanTicks, h1, h2]

theorem cleanTicks_badCount (toNum : String → Option Int)
    (toTs : String → Option Timestamp) (rows : List RawTick) :
    (cleanTicks toNum toTs rows).2 =
      (rows.filter (fun r => toNum r.price = none)).length +
      (rows.filter (fun r =>
        toNum r.price ≠ none ∧ toTs r.produced_at = none)).length := by
  induction rows with
  | nil => rfl
  | cons r rs ih =>
    rw [cleanTicks_snd_cons, ih, List.filter_cons, List.filter_cons]
    by_cases h1 : toNum r.price = none
    · simp [h1]; omega
    · by_cases h2 : toTs r.produced_at = none
      · simp [h1, h2]; omega
      · simp [h1, h2]

/-! ## Claim C5: the bad-record count -/

/-- C5 counterexample: a single row whose price and date both fail
coercion.  The cleaner reports 1 bad record, while the claimed
independent sum would report 2: the row is dropped at the price step and
never reaches the date scan. -/
theorem bad_record_double_count_cex :
    (cleanBatch (fun _ => none) (fun _ => none)
        [⟨"AAPL", "bad-date", "bad-price"⟩]).2 = 1 ∧
    specBadRecordCount (fun _ => none) (fun _ => none)
        [⟨"AAPL", "bad-date", "bad-price"⟩] = 2 :=
  ⟨rfl, rfl⟩

/-- C5 amended: the reported bad-record count equals (rows whose price
field fails numeric coercion) plus (rows whose price coercion succeeds
but whose date/timestamp field fails parsing); a row failing both
coercions is dropped at the price step and counted once, not twice.
This holds for both the daily-batch and the streaming cleaner. -/
theorem bad_record_count_amended (toNum : String → Option Int)
    (toDate : String → Option Date) (toTs : String → Option Timestamp)
    (rows : List RawBatchRow) (ticks : List RawTick) :
    (cleanBatch toNum toDate rows).2 =
      (rows.filter (fun r => toNum r.close_price = none)).length +
      (rows.filter (fun r =>
        toNum r.close_price ≠ none ∧ toDate r.date = none)).length ∧
    (cleanTicks toNum toTs ticks).2 =
      (ticks.filter (fun r => toNum r.price = none)).length +
      (ticks.filter (fun r =>
        toNum r.price ≠ none ∧ toTs r.produced_at = none)).length :=
  ⟨cleanBatch_badCount toNum toDate rows, cleanTicks_badCount toNum toTs ticks⟩

/-! ## Claim C6: the persisted-store uniqueness invariant -/

/-- C6 counterexample: an empty store satisfies the uniqueness invariant,
yet a cleaned batch containing the same `(company, date)` key twice has
both rows absent from the snapshot, both enter the delta, and the store
ends up with two `close_price` rows for one key. -/
theorem persisted_uniqueness_cex :
    uniqKeys ([] : List SnapRow) ∧
    ¬ uniqKeys (([] : List SnapRow) ++
        (deltaRows
          [⟨"AAPL", ⟨2024, 1, 1⟩, 200⟩, ⟨"AAPL", ⟨2024, 1, 1⟩, 201⟩]
          ([] : List SnapRow)).map cleanToSnap) := by
  decide

/-- C6 amended: if additionally the cleaned batch itself carries pairwise
distinct `(company, date)` keys (and the snapshot rows all have a
non-null `close_price`), then appending the computed delta preserves the
at-most-one-`close_price`-per-key invariant of the persisted store. -/
theorem persisted_uniqueness_amended (batch : List CleanRow)
    (snap : List SnapRow)
    (hnn : ∀ s ∈ snap, s.close_price ≠ none)
    (hsnap : uniqKeys snap)
    (hbatch : (cleanKeys batch).Nodup) :
    uniqKeys (snap ++ (deltaRows batch snap).map cleanToSnap) := by
  have hdelta := deltaRows_eq_filter batch snap hnn
  unfold uniqKeys snapKeys at *
  unfold cleanKeys at hbatch
  rw [List.map_append, List.nodup_append]
  refine ⟨hsnap, ?_, ?_⟩
  · rw [List.map_map]
    have hcomp : ((fun s : SnapRow => (s.company, s.close_date)) ∘ cleanToSnap)
        = fun r : CleanRow => (r.company, r.date) := by
      funext r; simp [cleanToSnap, Function.comp]
    rw [hcomp, hdelta]
    exact List.Nodup.sublist
      (List.Sublist.map _ (List.filter_sublist batch)) hbatch
  · intro k hk1 hk2
    rcases List.mem_map.mp hk1 with ⟨s, hs, rfl⟩
    rw [List.map_map] at hk2
    rcases List.mem_map.mp hk2 with ⟨d, hd, hkey⟩
    rw [hdelta] at hd
    have hkf : keyInSnap d snap = false := by
      simpa using (List.mem_filter.mp hd).2
    simp only [cleanToSnap, Function.comp] at hkey
    have hkt : keyInSnap d snap = true := by
      refine List.any_eq_true.mpr ⟨s, hs, ?_⟩
      have h1 : d.company = s.company := congrArg Prod.fst hkey
      have h2 : d.date = s.close_date := congrArg Prod.snd hkey
      simp [h1, h2]
    rw [hkt] at hkf
    exact Bool.noConfusion hkf

/-- Witness for C6's amended claim: a distinct-key batch against a
one-row store keeps the store's keys unique after the append. -/
theorem persisted_uniqueness_amended_witness :
    (∀ s ∈ [SnapRow.mk "MSFT" ⟨2024, 1, 2⟩ (some 300)],
        s.close_price ≠ none) ∧
    uniqKeys [SnapRow.mk "MSFT" ⟨2024, 1, 2⟩ (some 300)] ∧
    (cleanKeys [⟨"AAPL", ⟨2024, 1, 1⟩, 200⟩]).Nodup ∧
    uniqKeys ([SnapRow.mk "MSFT" ⟨2024, 1, 2⟩ (some 300)] ++
      (deltaRows [⟨"AAPL", ⟨2024, 1, 1⟩, 200⟩]
        [SnapRow.mk "MSFT" ⟨2024, 1, 2⟩ (some 300)]).map cleanToSnap) :=
  ⟨by decide, by decide, by decide,
   persisted_uniqueness_amended _ _ (by decide) (by decide) (by decide)⟩

/-! ## Helper lemmas on the timestamp order and on the latest-row pick -/

theorem tsLe_refl (a : Timestamp) : tsLe a a := Or.inr ⟨rfl, le_refl _⟩

theorem tsLt_le {a b : Timestamp} (h : tsLt a b) : tsLe a b := by
  unfold tsLt at h; unfold tsLe; omega

theorem tsLe_trans {a b c : Timestamp} (h1 : tsLe a b) (h2 : tsLe b c) :
    tsLe a c := by
  unfold tsLe at *; omega

theorem tsLe_of_not_lt {a b : Timestamp} (h : ¬ tsLt a b) : tsLe b a := by
  unfold tsLt at h; unfold tsLe; omega

theorem pickBetter_cases (best q : HistRow) :
    pickBetter best q = best ∨ pickBetter best q = q := by
  unfold pickBetter; split
  · right; rfl
  · left; rfl

theorem tsLe_pickBetter_left (best q : HistRow) :
    tsLe best.produced_at (pickBetter best q).produced_at := by
  unfold pickBetter; split
  · next h => exact tsLt_le h
  · exact tsLe_refl _

theorem tsLe_pickBetter_right (best q : HistRow) :
    tsLe q.produced_at (pickBetter best q).produced_at := by
  unfold pickBetter; split
  · exact tsLe_refl _
  · next h => exact tsLe_of_not_lt h

theorem foldl_pickBetter_mem (l : List HistRow) (init : HistRow) :
    l.foldl pickBetter init = init ∨ l.foldl pickBetter init ∈ l := by
  induction l generalizing init with
  | nil => left; rfl
  | cons a l ih =>
    rw [List.foldl_cons]
    rcases ih (pickBetter init a) with h | h
    · rcases pickBetter_cases init a with hc | hc
      · left; rw [h, hc]
      · right; rw [h, hc]; exact List.mem_cons_self a l
    · right; exact List.mem_cons_of_mem a h

theorem foldl_pickBetter_le_init (l : List HistRow) (init : HistRow) :
    tsLe init.produced_at (l.foldl pickBetter init).produced_at := by
  induction l generalizing init with
  | nil => exact tsLe_refl _
  | cons a l ih =>
    exact tsLe_trans (tsLe_pickBetter_left init a) (ih (pickBetter init a))

theorem foldl_pickBetter_le_mem (l : List HistRow) (init q : HistRow)
    (hq : q ∈ l) :
    tsLe q.produced_at (l.foldl pickBetter init).produced_at := by
  induction l generalizing init with
  | nil => cases hq
  | cons a l ih =>
    rw [List.foldl_cons]
    rcases List.mem_cons.mp hq with rfl | h
    · exact tsLe_trans (tsLe_pickBetter_right init q)
        (foldl_pickBetter_le_init l _)
    · exact ih _ h

theorem pickLatest_mem {l : List HistRow} {r : HistRow}
    (h : pickLatest l = some r) : r ∈ l := by
  cases l with
  | nil => cases h
  | cons a l =>
    have h' : l.foldl pickBetter a = r := by
      simpa [pickLatest] using h
    rcases foldl_pickBetter_mem l a with hm | hm
    · rw [h'] at hm; rw [hm]; exact List.mem_cons_self a l
    · rw [h'] at hm; exact List.mem_cons_of_mem a hm

theorem pickLatest_dominates {l : List HistRow} {r : HistRow}
    (h : pickLatest l = some r) :
    ∀ q ∈ l, tsLe q.produced_at r.produced_at := by
  cases l with
  | nil => intro q hq; cases hq
  | cons a l =>
    have h' : l.foldl pickBetter a = r := by
      simpa [pickLatest] using h
    intro q hq
    rcases List.mem_cons.mp hq with rfl | hql
    · rw [← h']; exact foldl_pickBetter_le_init l q
    · rw [← h']; exact foldl_pickBetter_le_mem l a q hql

theorem pickLatest_isSome {l : List HistRow} (h : l ≠ []) :
    ∃ r, pickLatest l = some r := by
  cases l with
  | nil => exact absurd rfl h
  | cons a l => exact ⟨_, rfl⟩

/-- Each symbol of a nodup symbol list contributes exactly one view row
with that symbol, provided the per-symbol picker always succeeds and
returns a row of the right symbol. -/
theorem filterMap_symbol_length_one (g : String → Option HistRow)
    (L : List String)
    (hg : ∀ s' r, g s' = some r → r.symbol = s')
    (hL : L.Nodup) (s : String) (hs : s ∈ L)
    (hsome : ∀ s' ∈ L, g s' ≠ none) :
    ((L.filterMap g).filter (fun r => r.symbol = s)).length = 1 := by
  induction L with
  | nil => cases hs
  | cons a L ih =>
    rw [List.filterMap_cons]
    rcases List.mem_cons.mp hs with rfl | hsL
    · cases hga : g s with
      | none => exact absurd hga (hsome s (List.mem_cons_self s L))
      | some r =>
        have hr : r.symbol = s := hg s r hga
        have hsnot : s ∉ L := (List.nodup_cons.mp hL).1
        have hnone : ((L.filterMap g).filter (fun x => x.symbol = s)) = [] := by
          refine List.filter_eq_nil_iff.mpr (fun x hx => ?_)
          rcases List.mem_filterMap.mp hx with ⟨s', hs', hgx⟩
          have hxs' := hg s' x hgx
          simp only [decide_eq_true_eq]
          intro hxs
          have hss' : s = s' := by rw [← hxs, hxs']
          exact hsnot (hss' ▸ hs')
        rw [List.filter_cons]
        simp [hr, hnone]
    · have ha : a ∉ L := (List.nodup_cons.mp hL).1
      have has : ¬ a = s := fun h => ha (h ▸ hsL)
      cases hga : g a with
      | none => exact absurd hga (hsome a (List.mem_cons_self a L))
      | some r =>
        have hr : r.symbol = a := hg a r hga
        rw [List.filter_cons]
        have hpred : ¬ (r.symbol = s) := by rw [hr]; exact has
        simp only [hpred, decide_False, if_false]
        exact ih (List.nodup_cons.mp hL).2 hsL
          (fun s' h => hsome s' (List.mem_cons_of_mem a h))

/-! ## Claim C3: latest-view correctness -/

/-- C3.  For every state of the streaming history table and every symbol
occurring in the scanned partition (rows with `p_year = year(produced_at)`),
the recomputed latest-price view holds exactly one row of that symbol, that
row comes from the scanned partition, and its `produced_at` is maximal
among the scanned rows of the symbol. -/
theorem latest_view_correct (hist : List HistRow) (s : String)
    (hs : s ∈ (scanned hist).map (·.symbol)) :
    ((latestView hist).filter (fun r => r.symbol = s)).length = 1 ∧
    ∀ r ∈ latestView hist, r.symbol = s →
      r ∈ scanned hist ∧
      ∀ q ∈ scanned hist, q.symbol = s →
        tsLe q.produced_at r.produced_at := by
  have hg : ∀ s' r, pickLatest (rowsFor s' (scanned hist)) = some r →
      r.symbol = s' := by
    intro s' r h
    have hm := List.mem_filter.mp (pickLatest_mem h)
    simpa using hm.2
  have hsome : ∀ s' ∈ ((scanned hist).map (·.symbol)).dedup,
      pickLatest (rowsFor s' (scanned hist)) ≠ none := by
    intro s' hs'
    have hs'' : s' ∈ (scanned hist).map (·.symbol) := List.mem_dedup.mp hs'
    rcases List.mem_map.mp hs'' with ⟨r, hr, hsym⟩
    have hne : rowsFor s' (scanned hist) ≠ [] := by
      intro hnil
      have hmem : r ∈ rowsFor s' (scanned hist) :=
        List.mem_filter.mpr ⟨hr, by simp [hsym]⟩
      rw [hnil] at hmem
      cases hmem
    rcases pickLatest_isSome hne with ⟨w, hw⟩
    rw [hw]
    simp
  constructor
  · show ((((((scanned hist).map (·.symbol))).dedup).filterMap
      (fun s' => pickLatest (rowsFor s' (scanned hist)))).filter
        (fun r => r.symbol = s)).length = 1
    exact filterMap_symbol_length_one _ _ hg (List.nodup_dedup _)
      s (List.mem_dedup.mpr hs) hsome
  · intro r hr hrs
    simp only [latestView] at hr
    rcases List.mem_filterMap.mp hr with ⟨s', _, hgr⟩
    have hsym := hg s' r hgr
    have hmem : r ∈ rowsFor s' (scanned hist) := pickLatest_mem hgr
    refine ⟨List.mem_of_mem_filter hmem, fun q hq hqs => ?_⟩
    have hss : s' = s := by rw [← hsym, hrs]
    have hq' : q ∈ rowsFor s' (scanned hist) := by
      refine List.mem_filter.mpr ⟨hq, ?_⟩
      simp [hqs, hss]
    exact pickLatest_dominates hgr q hq'

/-- Witness for C3: two AAPL rows in the scanned partition (plus one row
excluded by the partition predicate); the view holds exactly one AAPL
row. -/
theorem latest_view_correct_witness :
    ("AAPL" ∈ (scanned
        [⟨"AAPL", 100, ⟨2025, 5⟩, 2025⟩, ⟨"AAPL", 101, ⟨2025, 9⟩, 2025⟩,
         ⟨"NVDA", 50, ⟨2024, 3⟩, 2023⟩]).map (·.symbol)) ∧
    ((latestView
        [⟨"AAPL", 100, ⟨2025, 5⟩, 2025⟩, ⟨"AAPL", 101, ⟨2025, 9⟩, 2025⟩,
         ⟨"NVDA", 50, ⟨2024, 3⟩, 2023⟩]).filter
      (fun r => r.symbol = "AAPL")).length = 1 :=
  ⟨by decide,
   (latest_view_correct
      [⟨"AAPL", 100, ⟨2025, 5⟩, 2025⟩, ⟨"AAPL", 101, ⟨2025, 9⟩, 2025⟩,
       ⟨"NVDA", 50, ⟨2024, 3⟩, 2023⟩] "AAPL" (by decide)).1⟩

/-! ## Claim C7: the structure of the returned result -/

/-- C7 counterexample: when the queue delivers no messages the stream
handler returns a dictionary holding only the status key —
`records_appended` and `duration_seconds` are absent. -/
theorem return_value_structure_cex :
    process_stock_stream_data (fun _ => none) (fun _ => none) 0 [] [] =
      ⟨"no_messages", none, none⟩ :=
  rfl

/-- C7 amended: every result's status is one of success, success with
warning, no_messages; on every path with at least one queue message the
stream result carries `records_appended` and `duration_seconds`; the
no-messages result carries only the status.  The batch handler's results
always carry all three fields (its result type has no optional key), its
status being success or success with warning. -/
theorem return_value_structure_amended (toNum : String → Option Int)
    (toTs : String → Option Timestamp) (duration : Nat)
    (messages : List String) (raw : List RawTick)
    (toDate : String → Option Date) (durB : Nat)
    (rawB : List RawBatchRow) (snap : List SnapRow) :
    (process_stock_stream_data toNum toTs duration messages raw).status ∈
      ["success", "success with warning", "no_messages"] ∧
    (messages ≠ [] →
      (process_stock_stream_data toNum toTs duration messages
          raw).records_appended ≠ none ∧
      (process_stock_stream_data toNum toTs duration messages
          raw).duration_seconds ≠ none) ∧
    (messages = [] →
      process_stock_stream_data toNum toTs duration messages raw =
        ⟨"no_messages", none, none⟩) ∧
    (process_batch_files_lambda toNum toDate durB rawB snap).result.status ∈
      ["success", "success with warning"] := by
  refine ⟨?_, ?_, ?_, ?_⟩
  · simp only [process_stock_stream_data]
    split_ifs <;> simp
  · intro hm
    simp only [process_stock_stream_data, if_neg hm]
    split_ifs <;> simp
  · intro hm
    simp only [process_stock_stream_data, if_pos hm]
  · simp only [process_batch_files_lambda]
    split_ifs <;> simp

/-- Witness for C7's amended claim: a one-message invocation carries the
records_appended key. -/
theorem return_value_structure_amended_witness :
    ((["m"] : List String) ≠ []) ∧
    (process_stock_stream_data (fun _ => none) (fun _ => none) 3 ["m"]
        []).records_appended ≠ none :=
  ⟨by decide,
   ((return_value_structure_amended (fun _ => none) (fun _ => none) 3 ["m"]
      [] (fun _ => none) 0 [] []).2.1 (by decide)).1⟩

/-! ## Claim C8: the shared generation timestamp -/

/-- C8.  The streaming producer's documentation says all records of a
batch share one `produced_at`, but `datetime.now()` is called inside the
per-company loop: with a clock advancing one second per call, the two
sampled records carry different timestamps (while the batch generator,
which draws its date once, does share it). -/
theorem shared_timestamp_code_bug :
    (create_stock_market_data (fun _ => 0) (fun i => i) [0, 1]).map
        (·.produced_at) = [0, 1] ∧
    ((generate_stock_batch_data (fun _ => 0) "2024-05-05").map
        (·.date)).all (· = "2024-05-05") = true :=
  ⟨rfl, rfl⟩

/-! ## Claim C9: the generator price range -/

theorem randrange_model (lo n : Nat) (hn : 0 < n) (r : Nat) :
    lo ≤ lo + r % n ∧ lo + r % n < lo + n ∧
    ∀ v, lo ≤ v → v < lo + n → ∃! k, k < n ∧ lo + k % n = v := by
  refine ⟨Nat.le_add_right _ _, by have := Nat.mod_lt r hn; omega, ?_⟩
  intro v hv1 hv2
  refine ⟨v - lo, ⟨by omega, ?_⟩, ?_⟩
  · have h := Nat.mod_eq_of_lt (a := v - lo) (b := n) (by omega)
    omega
  · rintro k ⟨hk1, hk2⟩
    have h := Nat.mod_eq_of_lt hk1
    omega

/-- C9.  For every symbol of the fixed table with reference price `ref`,
every generated price lies in `[⌊0.9·ref⌋, ⌊1.1·ref⌋)`, and the draw is
uniform over that half-open interval: the random-source values below the
interval width map bijectively onto it. -/
theorem generator_price_range (sym : String) (ref : Nat)
    (h : (sym, ref) ∈ companiesPrice) (r : Nat) :
    minPrice ref ≤ drawnPrice ref r ∧ drawnPrice ref r < maxPrice ref ∧
    ∀ v, minPrice ref ≤ v → v < maxPrice ref →
      ∃! k, k < maxPrice ref - minPrice ref ∧ drawnPrice ref k = v := by
  have hpos : 0 < maxPrice ref - minPrice ref := by
    have hall : ∀ p ∈ companiesPrice, 0 < maxPrice p.2 - minPrice p.2 := by
      decide
    exact hall (sym, ref) h
  have hsum : minPrice ref + (maxPrice ref - minPrice ref) = maxPrice ref := by
    omega
  obtain ⟨h1, h2, h3⟩ :=
    randrange_model (minPrice ref) (maxPrice ref - minPrice ref) hpos r
  rw [hsum] at h2 h3
  exact ⟨h1, h2, h3⟩

/-- Witness for C9: the NVDA entry at random value 0. -/
theorem generator_price_range_witness :
    (("NVDA", 143) ∈ companiesPrice) ∧
    (minPrice 143 ≤ drawnPrice 143 0 ∧ drawnPrice 143 0 < maxPrice 143 ∧
     ∀ v, minPrice 143 ≤ v → v < maxPrice 143 →
       ∃! k, k < maxPrice 143 - minPrice 143 ∧ drawnPrice 143 k = v) :=
  ⟨by decide, generator_price_range "NVDA" 143 (by decide) 0⟩

/-! ## Claim C10: the publisher ignores its records parameter -/

/-- C10.  The stream publisher's `records` parameter is rebound to a
fresh `create_stock_market_data()` result before any use: two invocations
agreeing on the random source, clock, sampler and transport publish
identical data and return identical counts, whatever records arguments
they received. -/
theorem records_param_independence
    (putRecords : List PutRecord → PutResponse) (rng clock : Nat → Nat)
    (sampleIdx : List Nat) (r1 r2 : List StockRec) :
    write_records_to_stream putRecords rng clock sampleIdx r1 =
      write_records_to_stream putRecords rng clock sampleIdx r2 :=
  rfl

end StockMarket
